import Mathlib

/-!
Verification development for the data-normalization core of
circonus-unified-agent: timestamp normalization, flexible literal
parsing, the process-wide version string (`internal/internal.go`),
and the version-gated query runner / row classifier
(`plugins/inputs/postgresql_extensible/postgresql_extensible.go`).

Machine integers are modelled as `Int`/`Nat` with explicit range
checks where the Go code performs them; Go `float64` values are
modelled as exact rationals (`ℚ`), which coincides with the Go
semantics at inputs where the floating-point operations are exact.
Fallible Go functions returning `(value, error)` are modelled with
`Option`.
-/

set_option autoImplicit false

namespace CUA

/-- Model of Go `time.Time`: nanoseconds since the Unix epoch plus the
location name attached to the value. `time.Unix` produces a value in the
local location; `.UTC()` rewrites the location to `"UTC"`. -/
structure GoTime where
  nanos : Int
  loc : String
  deriving DecidableEq, Repr

/-- Go `time.Unix(sec, nsec)`. -/
def unixTime (sec nsec : Int) : GoTime :=
  { nanos := sec * 1000000000 + nsec, loc := "Local" }

/-- Go `t.UTC()`. -/
def GoTime.utc (t : GoTime) : GoTime :=
  { t with loc := "UTC" }

/-- The dynamic `interface{}` timestamp argument of `ParseTimestamp`:
the Go code switches over `string`, `int64` and `float64`; every other
dynamic type is the `other` case ("unsupported type"). -/
inductive TsValue where
  | str (s : String)
  | int64 (n : Int)
  | float64 (q : ℚ)
  | other
  deriving DecidableEq

/-- Decimal value of a digit list, most significant first (the
accumulator loop inside Go `strconv.ParseInt`). -/
def digitsVal (ds : List Char) : Nat :=
  ds.foldl (fun a c => a * 10 + (c.toNat - 48)) 0

/-- ASCII digit test, the `'0' <= c && c <= '9'` check inside Go
`strconv.ParseInt` at base 10. -/
def isDigitC (c : Char) : Bool :=
  48 ≤ c.toNat && c.toNat ≤ 57

/-- The digit-run phase of Go `strconv.ParseInt(s, 10, 64)`: at least
one ASCII digit, all characters digits, and the signed value must fit
in a signed 64-bit integer (bounds `-2^63` and `2^63 - 1`, written as
literals). -/
def parseDigits (ds : List Char) (sg : Int) : Option Int :=
  if ds.isEmpty then none
  else if ds.all isDigitC then
    let v : Int := sg * (digitsVal ds : Int)
    if -9223372036854775808 ≤ v ∧ v ≤ 9223372036854775807 then some v
    else none
  else none

/-- Go `strconv.ParseInt(s, 10, 64)` on a character list: an optional
sign, then one or more ASCII digits, with the value required to fit in
a signed 64-bit integer. -/
def parseIntList (cs : List Char) : Option Int :=
  match cs with
  | [] => none
  | c :: r =>
    if c = '+' then parseDigits r 1
    else if c = '-' then parseDigits r (-1)
    else parseDigits (c :: r) 1

/-- Go `strconv.ParseInt(s, 10, 64)`. -/
def parseInt64 (s : String) : Option Int :=
  parseIntList s.data

/-- Split a character list at the first occurrence of `sep`
(the effect of Go `strings.SplitN(s, sep, 2)` when it finds the
separator; `none` when the separator is absent). -/
def splitFirst (sep : Char) : List Char → Option (List Char × List Char)
  | [] => none
  | c :: r =>
    if c = sep then some ([], r)
    else
      match splitFirst sep r with
      | some (a, b) => some (c :: a, b)
      | none => none

/-- `parseUnixTimeComponents(first, second)` from `internal.go`: parse
`first` as a signed 64-bit integer; build the nanosecond field by
writing `second` over a 9-byte buffer of `'0'` (Go
`buf := []byte("000000000"); copy(buf, second)`), so at most the first
9 characters of `second` are kept and shorter inputs are right-padded
with zeros; parse the buffer as a signed 64-bit integer. -/
def parseUnixTimeComponents (first second : String) : Option (Int × Int) :=
  match parseInt64 first with
  | none => none
  | some integer =>
    let kept := second.data.take 9
    let buf := kept ++ List.replicate (9 - kept.length) '0'
    match parseIntList buf with
    | none => none
    | some fractional => some (integer, fractional)

/-- Truncation toward zero: the effect of Go's `int64(f)` conversion
from `float64`, and of the integer part produced by `math.Modf`. -/
def ratTrunc (q : ℚ) : Int :=
  if 0 ≤ q then ⌊q⌋ else ⌈q⌉

/-- `parseComponents(timestamp)` from `internal.go`: for a string,
split at the first `'.'`, else at the first `','`, else parse the
whole string as an integer; for `int64` the fractional part is 0; for
`float64` the code runs `math.Modf` and converts
`int64(fractional * 1e9)`; any other dynamic type is an error. The
float branch is modelled over exact rationals: Go computes
`fractional * 1e9` rounded to `float64` precision (the model agrees
wherever that product is exact) and, since `math.Modf` keeps
`|fractional| < 1`, the product stays within the `int64` range, so
the conversion is plain truncation toward zero; the `int64(integer)`
conversion is likewise modelled as exact truncation (Go leaves it
implementation-defined outside the `int64` range). -/
def parseComponents (ts : TsValue) : Option (Int × Int) :=
  match ts with
  | .str s =>
    match splitFirst '.' s.data with
    | some (a, b) => parseUnixTimeComponents (String.mk a) (String.mk b)
    | none =>
      match splitFirst ',' s.data with
      | some (a, b) => parseUnixTimeComponents (String.mk a) (String.mk b)
      | none =>
        match parseInt64 s with
        | none => none
        | some integer => some (integer, 0)
  | .int64 n => some (n, 0)
  | .float64 q =>
    let integer := ratTrunc q
    some (integer, ratTrunc ((q - (integer : ℚ)) * 1000000000))
  | .other => none

/-- Go `strings.ToLower` (character-wise lowering, which agrees with
the Go function on the ASCII format names this code compares
against). -/
def strToLower (s : String) : String :=
  String.mk (s.data.map Char.toLower)

/-- Two's-complement wrap-around of signed 64-bit arithmetic: the
value a Go `int64` expression holds after overflow. -/
def wrap64 (n : Int) : Int :=
  (n + 9223372036854775808) % 18446744073709551616 - 9223372036854775808

/-- `parseUnix(format, timestamp)` from `internal.go`: decompose the
timestamp, then dispatch on `strings.ToLower(format)`; only the
`"unix"` kind applies the fractional component. The products
`integer*1e6` and `integer*1e3` are Go `int64` multiplications and
wrap on overflow; the `unix_ns` branch passes the integer through
unchanged. -/
def parseUnix (format : String) (ts : TsValue) : Option GoTime :=
  match parseComponents ts with
  | none => none
  | some (integer, fractional) =>
    if strToLower format = "unix" then some (unixTime integer fractional).utc
    else if strToLower format = "unix_ms" then
      some (unixTime 0 (wrap64 (integer * 1000000))).utc
    else if strToLower format = "unix_us" then
      some (unixTime 0 (wrap64 (integer * 1000))).utc
    else if strToLower format = "unix_ns" then some (unixTime 0 integer).utc
    else none

/-- `ParseTimestamp(format, timestamp, location)` from `internal.go`.
The custom-layout branch calls `time.LoadLocation` /
`time.ParseInLocation`, Go standard-library collaborators modelled by
the parameter `parseTimeF`; the unix branch never consults the
location. An empty location defaults to `"UTC"` before the layout
branch is entered. -/
def ParseTimestamp (parseTimeF : String → TsValue → String → Option GoTime)
    (format : String) (ts : TsValue) (location : String) : Option GoTime :=
  if format = "unix" ∨ format = "unix_ms" ∨ format = "unix_us" ∨ format = "unix_ns" then
    parseUnix format ts
  else
    parseTimeF format ts (if location = "" then "UTC" else location)

/-! ### Flexible literal parsing: `Duration.UnmarshalTOML` -/

/-- Go `bytes.Trim(b, "'")`: strip leading and trailing single-quote
characters (code point 39). -/
def trimQuotes (s : String) : String :=
  let q := Char.ofNat 39
  String.mk (((s.data.dropWhile (· = q)).reverse.dropWhile (· = q)).reverse)

/-- `Duration.UnmarshalTOML(b)` from `internal.go`. Durations are in
nanoseconds. The Go standard-library collaborators are parameters:
`parseDur` models `time.ParseDuration`, `unquote` models
`strconv.Unquote`, `parseI` models `strconv.ParseInt(,10,64)` and
`parseF` models `strconv.ParseFloat(,64)`. The chain: trim single
quotes; try `parseDur` directly; else unquote and (when the unquoted
string is nonempty) try `parseDur` on it; else a bare integer is whole
seconds; else a bare float `sF` yields
`time.Second * time.Duration(sF)`, i.e. `1e9 * int64(sF)` — the
float is truncated to whole seconds before scaling. Both products
with `time.Second` are Go `int64` multiplications and wrap on
overflow (`wrap64`); the float-to-`int64` conversion is modelled as
exact truncation (Go leaves it implementation-defined outside the
`int64` range). The method always returns a nil error; when nothing
applies the duration is left at the zero value the earlier failed
`ParseDuration` calls stored. -/
def durationUnmarshalTOML (parseDur : String → Option Int)
    (unquote : String → Option String) (parseI : String → Option Int)
    (parseF : String → Option ℚ) (b : String) : Int × Option String :=
  let s := trimQuotes b
  match parseDur s with
  | some d => (d, none)
  | none =>
    match
      (match unquote s with
       | some uq => if 0 < uq.length then parseDur uq else none
       | none => none) with
    | some d => (d, none)
    | none =>
      match parseI s with
      | some sI => (wrap64 (1000000000 * sI), none)
      | none =>
        match parseF s with
        | some sF => (wrap64 (1000000000 * ratTrunc sF), none)
        | none => (0, none)

/-! ### Process-wide version string: `SetVersion` / `Version` -/

/-- `SetVersion(v)` from `internal.go`, with the package-level `version`
variable made explicit as a state argument: if the stored version is
nonempty the call fails with `ErrVersionAlreadySet` and leaves the state
unchanged; otherwise it stores `v` and succeeds. The process starts with
the zero value `""`. -/
def setVersionStep (state v : String) : String × Option String :=
  if state ≠ "" then (state, some "version has already been set")
  else (v, none)

/-- `Version()` from `internal.go`: read the stored version. -/
def versionGet (state : String) : String := state

/-! ### Row classification and the version-gated query runner
(`postgresql_extensible.go`) -/

/-- The dynamic value a database column scans into (`*interface{}`):
the classification switches in `accRow` distinguish `nil`, `string`,
`[]byte`, `int64`/`int32`/`int`, and everything else (`bool`,
`float64`, ...). -/
inductive RawValue where
  | null
  | boolV (b : Bool)
  | int64 (n : Int)
  | int32 (n : Int)
  | intV (n : Int)
  | float64 (q : ℚ)
  | str (s : String)
  | bytes (s : String)
  deriving DecidableEq

/-- One scanned result row: column names with their dynamic values. -/
abbrev Row := List (String × RawValue)

/-- First value stored under `name`, the lookup a Go
`map[string]*interface{}` provides when column names are distinct. -/
def lookupCol (row : Row) (name : String) : Option RawValue :=
  match row with
  | [] => none
  | (c, v) :: rest => if c = name then some v else lookupCol rest name

/-- One entry of the `[[inputs.postgresql_extensible.query]]` list. -/
structure QueryItem where
  sqlquery : String
  version : Int
  withdbname : Bool
  tagvalue : String
  measurement : String

/-- Outcome of `p.DB.Query` plus the subsequent `rows.Columns()` call
and per-row `Scan` calls: the query can fail, column retrieval can
fail, or it yields a list of rows each of whose `Scan` either fails
(`none`) or produces the scanned row. -/
inductive QueryOutcome where
  | execError
  | colsError
  | ok (rows : List (Option Row))
  deriving DecidableEq

/-- The external collaborators of one `Gather` call: the version
detection row (`none` when `QueryRow(...).Scan` fails), the query
executor, and `SanitizedAddress` (`none` when it errors). -/
structure Env where
  detectVersion : Option Int
  runQuery : String → QueryOutcome
  sanitizedAddress : Option String

/-- One emitted metric (`acc.AddFields(measName, fields, tags)`); tag
and field maps are modelled as lookup functions. -/
structure Record where
  name : String
  tags : String → Option String
  fields : String → Option RawValue

/-- Pointwise map update: Go `m[k] = v`. -/
def upd {α : Type} (f : String → Option α) (k : String) (v : α) :
    String → Option α :=
  fun n => if n = k then some v else f n

/-- The `datname` extraction in `accRow`: the `db` tag is the value of
a present, non-nil, `string`-typed `datname` column, else
`"postgres"`. -/
def dbnameOf (row : Row) : String :=
  match lookupCol row "datname" with
  | some (.str s) => s
  | _ => "postgres"

/-- One iteration of the `COLUMN` loop in `accRow`: skip the column if
it is ignored (`stats_reset`) or nil; if its name is an additional
tag, `string`/`[]byte` become the tag text, `int64`/`int32`/`int`
become the decimal string (`fmt.Sprintf`), and every other type is
dropped with a debug diagnostic; otherwise the column becomes a field,
with `[]byte` converted to `string`. -/
def classifyStep (addTags : List String)
    (st : (String → Option String) × (String → Option RawValue))
    (cv : String × RawValue) :
    (String → Option String) × (String → Option RawValue) :=
  if cv.1 = "stats_reset" ∨ cv.2 = RawValue.null then st
  else if cv.1 ∈ addTags then
    match cv.2 with
    | .str s => (upd st.1 cv.1 s, st.2)
    | .bytes s => (upd st.1 cv.1 s, st.2)
    | .int64 n => (upd st.1 cv.1 (toString n), st.2)
    | .int32 n => (upd st.1 cv.1 (toString n), st.2)
    | .intV n => (upd st.1 cv.1 (toString n), st.2)
    | _ => st
  else
    match cv.2 with
    | .bytes s => (st.1, upd st.2 cv.1 (.str s))
    | v => (st.1, upd st.2 cv.1 v)

/-- The tag/field maps `accRow` builds for one row: tags start from
`{"server": sanitizedAddress, "db": dbname}`, then every column is
classified by `classifyStep`. -/
def accRowModel (addTags : List String) (sanAddr : String) (row : Row) :
    (String → Option String) × (String → Option RawValue) :=
  let dbn := dbnameOf row
  let t0 : String → Option String :=
    fun n => if n = "server" then some sanAddr
             else if n = "db" then some dbn else none
  row.foldl (classifyStep addTags) (t0, fun _ => none)

/-- The fate of a single looked-up column under `accRow`'s
classification, used to characterize `accRowModel` at any column name
other than the pre-seeded `"server"`/`"db"` tag keys: absent or
ignored or nil columns land nowhere; additional-tag columns become
string tags (with integer kinds rendered in decimal) or are dropped
when stringification is unsupported; all other columns become fields
with `[]byte` decoded to a string. -/
def columnFate (addTags : List String) (name : String) :
    Option RawValue → Option String × Option RawValue
  | none => (none, none)
  | some v =>
    if name = "stats_reset" ∨ v = RawValue.null then (none, none)
    else if name ∈ addTags then
      match v with
      | .str s => (some s, none)
      | .bytes s => (some s, none)
      | .int64 n => (some (toString n), none)
      | .int32 n => (some (toString n), none)
      | .intV n => (some (toString n), none)
      | _ => (none, none)
    else
      match v with
      | .bytes s => (none, some (.str s))
      | v => (none, some v)

/-- Effective query text: when `withdbname` is set, a non-empty
database list appends an `IN (...)` predicate and an empty list
appends `" is not null"`; otherwise the text is unmodified. -/
def effQuery (dbs : List String) (q : QueryItem) : String :=
  let sq := String.mk [Char.ofNat 39]
  q.sqlquery ++
    (if q.withdbname then
       (if dbs ≠ [] then
          " IN (" ++ sq ++ String.intercalate (sq ++ "," ++ sq) dbs ++ sq ++ ")"
        else " is not null")
     else "")

/-- Measurement name: the descriptor's `measurement`, defaulting to
`"postgresql"` when empty. -/
def measOf (q : QueryItem) : String :=
  if q.measurement ≠ "" then q.measurement else "postgresql"

/-- Go `strings.Split(s, ",")` on a character list. -/
def splitOnChar (sep : Char) : List Char → List (List Char)
  | [] => [[]]
  | c :: r =>
    if c = sep then [] :: splitOnChar sep r
    else
      match splitOnChar sep r with
      | [] => [[c]]
      | a :: as => (c :: a) :: as

/-- The per-descriptor `AdditionalTags`: the comma-separated
`tagvalue`, or no tags when it is empty. -/
def addTagsOf (q : QueryItem) : List String :=
  if q.tagvalue ≠ "" then (splitOnChar ',' q.tagvalue.data).map String.mk
  else []

/-- The `rows.Next()` loop of `Gather`: each row is passed to
`accRow`; a scan failure or `SanitizedAddress` failure logs the error
and breaks out of the row loop, dropping the remaining rows of this
descriptor only. Returns the emitted records and the number of logged
errors. -/
def processRows (addTags : List String) (sanAddr : Option String)
    (meas : String) : List (Option Row) → List Record × Nat
  | [] => ([], 0)
  | none :: _ => ([], 1)
  | some row :: rest =>
    match sanAddr with
    | none => ([], 1)
    | some addr =>
      let tf := accRowModel addTags addr row
      let r := processRows addTags sanAddr meas rest
      (⟨meas, tf.1, tf.2⟩ :: r.1, r.2)

/-- The descriptor loop of `Gather`: descriptors whose `version`
exceeds the detected version are skipped silently; a query-execution
or column-retrieval error is logged and the loop continues with the
next descriptor. -/
def gatherLoop (env : Env) (dbs : List String) (dbVersion : Int) :
    List QueryItem → List Record × Nat
  | [] => ([], 0)
  | q :: rest =>
    let here : List Record × Nat :=
      if q.version ≤ dbVersion then
        match env.runQuery (effQuery dbs q) with
        | .execError => ([], 1)
        | .colsError => ([], 1)
        | .ok rows => processRows (addTagsOf q) env.sanitizedAddress (measOf q) rows
      else ([], 0)
    let later := gatherLoop env dbs dbVersion rest
    (here.1 ++ later.1, here.2 + later.2)

/-- `Postgresql.Gather`: detect the version (a failed scan leaves
`dbVersion` at 0 and the cycle continues), run the descriptor loop,
and return nil — the method never returns a non-nil error. Result:
emitted records, logged error count, and the returned error. -/
def gather (env : Env) (dbs : List String) (qs : List QueryItem) :
    List Record × Nat × Option String :=
  let dbVersion := match env.detectVersion with | some v => v | none => 0
  let r := gatherLoop env dbs dbVersion qs
  (r.1, r.2, none)

/-! ### Theorems -/

/-- C1 counterexample: the string `"10000000000000"` parses
successfully with kind `unix_ms`, but the Go `int64` product
`integer * 1e6` wraps, so the result is about `-8.45e18` nanoseconds —
not `epoch + 10^13 * 1e6` nanoseconds as claimed. -/
theorem ParseTimestamp_unixms_overflow_cex :
    ParseTimestamp (fun _ _ _ => none) "unix_ms" (.str "10000000000000")
        "UTC" =
      some { nanos := -8446744073709551616, loc := "UTC" } ∧
    (-8446744073709551616 : Int) ≠ 10000000000000 * 1000000 := by
  exact ⟨by decide, by decide⟩

/-- C1 amended: for the sub-second unix kinds, every successful parse
discards the fractional component of the decomposition and carries the
UTC location regardless of the supplied location string; the nanosecond
count is the wrapped `int64` product `integer * (1e6 | 1e3)` for
`unix_ms`/`unix_us` (equal to the exact product whenever it is within
the `int64` range) and `integer` itself for `unix_ns`; in particular
`Parse(UnixMs, 1000)` is exactly one second past the epoch in UTC. -/
theorem ParseTimestamp_subsecond_kinds
    (parseTimeF : String → TsValue → String → Option GoTime)
    (ts : TsValue) (location : String) (fmt : String) (scale : Int)
    (hfmt : (fmt = "unix_ms" ∧ scale = 1000000) ∨
            (fmt = "unix_us" ∧ scale = 1000) ∨
            (fmt = "unix_ns" ∧ scale = 1)) :
    (∀ t, ParseTimestamp parseTimeF fmt ts location = some t →
       ∃ i f, parseComponents ts = some (i, f) ∧ t.loc = "UTC" ∧
         ((fmt = "unix_ms" ∨ fmt = "unix_us") →
           t.nanos = wrap64 (i * scale)) ∧
         (fmt = "unix_ns" → t.nanos = i)) ∧
    (∀ n : Int, -9223372036854775808 ≤ n → n ≤ 9223372036854775807 →
       wrap64 n = n) ∧
    ParseTimestamp parseTimeF "unix_ms" (.int64 1000) location =
      some { nanos := 1000000000, loc := "UTC" } := by
  refine ⟨?_, ?_, ?_⟩
  · intro t ht
    rcases hfmt with ⟨hf, hs⟩ | ⟨hf, hs⟩ | ⟨hf, hs⟩
    · subst hf; subst hs
      simp only [ParseTimestamp, if_pos (show ("unix_ms" = "unix" ∨
        "unix_ms" = "unix_ms" ∨ "unix_ms" = "unix_us" ∨
        "unix_ms" = "unix_ns") by decide)] at ht
      cases hc : parseComponents ts with
      | none => simp [parseUnix, hc] at ht
      | some p =>
        obtain ⟨i, f⟩ := p
        have hlow : strToLower "unix_ms" = "unix_ms" := by decide
        refine ⟨i, f, rfl, ?_⟩
        cases t with
        | mk na lo =>
          simp [parseUnix, hc, hlow, unixTime, GoTime.utc] at ht
          obtain ⟨h1, h2⟩ := ht
          refine ⟨by simp [h2], fun _ => by simp [h1], fun h => absurd h
            (by decide)⟩
    · subst hf; subst hs
      simp only [ParseTimestamp, if_pos (show ("unix_us" = "unix" ∨
        "unix_us" = "unix_ms" ∨ "unix_us" = "unix_us" ∨
        "unix_us" = "unix_ns") by decide)] at ht
      cases hc : parseComponents ts with
      | none => simp [parseUnix, hc] at ht
      | some p =>
        obtain ⟨i, f⟩ := p
        have hlow : strToLower "unix_us" = "unix_us" := by decide
        refine ⟨i, f, rfl, ?_⟩
        cases t with
        | mk na lo =>
          simp [parseUnix, hc, hlow, unixTime, GoTime.utc] at ht
          obtain ⟨h1, h2⟩ := ht
          refine ⟨by simp [h2], fun _ => by simp [h1], fun h => absurd h
            (by decide)⟩
    · subst hf; subst hs
      simp only [ParseTimestamp, if_pos (show ("unix_ns" = "unix" ∨
        "unix_ns" = "unix_ms" ∨ "unix_ns" = "unix_us" ∨
        "unix_ns" = "unix_ns") by decide)] at ht
      cases hc : parseComponents ts with
      | none => simp [parseUnix, hc] at ht
      | some p =>
        obtain ⟨i, f⟩ := p
        have hlow : strToLower "unix_ns" = "unix_ns" := by decide
        refine ⟨i, f, rfl, ?_⟩
        cases t with
        | mk na lo =>
          simp [parseUnix, hc, hlow, unixTime, GoTime.utc] at ht
          obtain ⟨h1, h2⟩ := ht
          refine ⟨by simp [h2], ?_, fun _ => by simp [h1]⟩
          intro h
          rcases h with h | h <;> exact absurd h (by decide)
  · intro n hlo hhi
    unfold wrap64
    omega
  · have hdisp : ParseTimestamp parseTimeF "unix_ms" (.int64 1000) location =
        parseUnix "unix_ms" (.int64 1000) := by
      simp [ParseTimestamp]
    rw [hdisp]
    decide

/-- C1 witness: `ParseTimestamp` at the `unix_ms` kind on the string
input `"1000.5"` succeeds, the fractional half-millisecond is
discarded, and the result is the wrapped (here in-range) product in
UTC: one second past the epoch. -/
theorem ParseTimestamp_subsecond_kinds_witness :
    ∃ i f, parseComponents (.str "1000.5") = some (i, f) ∧
      ({ nanos := 1000000000, loc := "UTC" } : GoTime).loc = "UTC" ∧
      ((("unix_ms" : String) = "unix_ms" ∨ ("unix_ms" : String) = "unix_us") →
        ({ nanos := 1000000000, loc := "UTC" } : GoTime).nanos =
          wrap64 (i * 1000000)) ∧
      (("unix_ms" : String) = "unix_ns" →
        ({ nanos := 1000000000, loc := "UTC" } : GoTime).nanos = i) :=
  (ParseTimestamp_subsecond_kinds (fun _ _ _ => none) (.str "1000.5")
    "America/New_York" "unix_ms" 1000000 (Or.inl ⟨rfl, rfl⟩)).1
    { nanos := 1000000000, loc := "UTC" } (by decide)

/-- C3 counterexample: at the float input `1 + 2⁻³⁰` (exactly
representable in `float64`, so every operation the Go code performs on
it is exact), the code truncates `frac · 1e9 ≈ 0.9313` to `0` while
the claimed `round(frac(value) · 1e9)` equals `1`. -/
theorem parseComponents_float_round_cex :
    parseComponents (.float64 (1 + 1 / 2 ^ 30)) = some (1, 0) ∧
    round (((1 + (1 : ℚ) / 2 ^ 30) - 1) * 1000000000) = 1 := by
  have h1 : ratTrunc (1 + 1 / 2 ^ 30) = 1 := by
    rw [ratTrunc, if_pos (by norm_num)]
    norm_num [Int.floor_eq_iff]
  constructor
  · simp only [parseComponents, h1]
    have h2 : ratTrunc ((1 + 1 / 2 ^ 30 - ((1 : Int) : ℚ)) * 1000000000) = 0 := by
      rw [ratTrunc, if_pos (by norm_num)]
      norm_num [Int.floor_eq_iff]
    rw [h2]
  · norm_num [round_eq, Int.floor_eq_iff]

/-- Toward-zero truncation of a nonnegative rational rounds down. -/
theorem ratTrunc_nonneg_bounds (x : ℚ) (hx : 0 ≤ x) :
    (ratTrunc x : ℚ) ≤ x ∧ x < ratTrunc x + 1 := by
  rw [ratTrunc, if_pos hx]
  exact ⟨Int.floor_le x, Int.lt_floor_add_one x⟩

/-- Toward-zero truncation of a nonpositive rational rounds up. -/
theorem ratTrunc_nonpos_bounds (x : ℚ) (hx : x ≤ 0) :
    x ≤ (ratTrunc x : ℚ) ∧ (ratTrunc x : ℚ) < x + 1 := by
  rcases eq_or_lt_of_le hx with h | h
  · subst h
    rw [ratTrunc, if_pos le_rfl]
    norm_num
  · rw [ratTrunc, if_neg (not_le.mpr h)]
    exact ⟨Int.le_ceil x, Int.ceil_lt_add_one x⟩

/-- C3 amended: for every float input, positive or negative, the
integer part `i` is the value truncated toward zero and the fractional
nanosecond part `f` is `frac(value) * 1e9` truncated toward zero —
bounded below by the exact product for nonnegative inputs and above
for negative ones — i.e. truncation toward zero of the exact rational
product, not rounding to the nearest nanosecond. -/
theorem parseComponents_float_truncation (q : ℚ) :
    ∃ i f : Int, parseComponents (.float64 q) = some (i, f) ∧
      (0 ≤ q → (i : ℚ) ≤ q ∧ q < i + 1 ∧
        (f : ℚ) ≤ (q - i) * 1000000000 ∧ (q - i) * 1000000000 < f + 1) ∧
      (q < 0 → q ≤ (i : ℚ) ∧ (i : ℚ) < q + 1 ∧
        (q - i) * 1000000000 ≤ (f : ℚ) ∧
        (f : ℚ) < (q - i) * 1000000000 + 1) := by
  refine ⟨ratTrunc q, ratTrunc ((q - (ratTrunc q : ℚ)) * 1000000000),
    rfl, ?_, ?_⟩
  · intro hq
    have hi := ratTrunc_nonneg_bounds q hq
    have h0 : (0 : ℚ) ≤ q - ratTrunc q := by linarith [hi.1]
    have hfr : (0 : ℚ) ≤ (q - (ratTrunc q : ℚ)) * 1000000000 := by positivity
    have hf := ratTrunc_nonneg_bounds _ hfr
    exact ⟨hi.1, hi.2, hf.1, hf.2⟩
  · intro hq
    have hi := ratTrunc_nonpos_bounds q (le_of_lt hq)
    have h0 : q - (ratTrunc q : ℚ) ≤ 0 := by linarith [hi.1]
    have hfr : (q - (ratTrunc q : ℚ)) * 1000000000 ≤ 0 := by nlinarith
    have hf := ratTrunc_nonpos_bounds _ hfr
    exact ⟨hi.1, hi.2, hf.1, hf.2⟩

/-- C3 witness: at the negative input `-5/2`, truncation toward zero
yields integer part `-2` and fractional part `-500000000`, bracketed
from above by the exact product. -/
theorem parseComponents_float_truncation_witness :
    ∃ i f : Int, parseComponents (.float64 (-5 / 2)) = some (i, f) ∧
      (0 ≤ (-5 / 2 : ℚ) → (i : ℚ) ≤ -5 / 2 ∧ (-5 / 2 : ℚ) < i + 1 ∧
        (f : ℚ) ≤ ((-5 / 2 : ℚ) - i) * 1000000000 ∧
        ((-5 / 2 : ℚ) - i) * 1000000000 < f + 1) ∧
      ((-5 / 2 : ℚ) < 0 → (-5 / 2 : ℚ) ≤ (i : ℚ) ∧ (i : ℚ) < -5 / 2 + 1 ∧
        ((-5 / 2 : ℚ) - i) * 1000000000 ≤ (f : ℚ) ∧
        (f : ℚ) < ((-5 / 2 : ℚ) - i) * 1000000000 + 1) :=
  parseComponents_float_truncation (-5 / 2)

/-- C4 counterexample: the bare float `"1.5"` is accepted by the float
branch, but the fractional part is not carried into the result — the
code computes `time.Second * time.Duration(1.5)` = 1 second, not 1.5
seconds, so a bare float is not interpreted as seconds with the
fractional part applied. -/
theorem durationUnmarshalTOML_fractional_cex :
    durationUnmarshalTOML (fun _ => none) (fun _ => none) (fun _ => none)
      (fun s => if s = "1.5" then some (3 / 2) else none) "1.5" =
      (1000000000, none) ∧
    (1000000000 : Int) ≠ 1500000000 := by
  have htr : trimQuotes "1.5" = "1.5" := by decide
  have h1 : ratTrunc (3 / 2 : ℚ) = 1 := by
    rw [ratTrunc, if_pos (by norm_num)]
    norm_num [Int.floor_eq_iff]
  constructor
  · simp only [durationUnmarshalTOML, htr, if_true]
    rw [h1]
    decide
  · decide

/-- C4 amended: the duration literal chain tries, in order, a direct
duration expression, a quoted duration string (only when unquoting
succeeds on a nonempty result), a bare integer as whole seconds, then
a bare float truncated toward zero to whole seconds (the fractional
part is accepted in the syntax but discarded), with both products with
`time.Second` wrapping as `int64`; the first successful interpretation
wins, and when none applies the result is the zero duration with a nil
error — indeed the error component is nil on every path. -/
theorem durationUnmarshalTOML_chain
    (parseDur : String → Option Int) (unquote : String → Option String)
    (parseI : String → Option Int) (parseF : String → Option ℚ) (b : String) :
    (∀ d, parseDur (trimQuotes b) = some d →
       durationUnmarshalTOML parseDur unquote parseI parseF b = (d, none)) ∧
    (∀ u d, parseDur (trimQuotes b) = none → unquote (trimQuotes b) = some u →
       0 < u.length → parseDur u = some d →
       durationUnmarshalTOML parseDur unquote parseI parseF b = (d, none)) ∧
    (∀ n, parseDur (trimQuotes b) = none →
       (∀ u, unquote (trimQuotes b) = some u → u.length = 0 ∨ parseDur u = none) →
       parseI (trimQuotes b) = some n →
       durationUnmarshalTOML parseDur unquote parseI parseF b =
         (wrap64 (1000000000 * n), none)) ∧
    (∀ q, parseDur (trimQuotes b) = none →
       (∀ u, unquote (trimQuotes b) = some u → u.length = 0 ∨ parseDur u = none) →
       parseI (trimQuotes b) = none → parseF (trimQuotes b) = some q →
       durationUnmarshalTOML parseDur unquote parseI parseF b =
         (wrap64 (1000000000 * ratTrunc q), none)) ∧
    ((parseDur (trimQuotes b) = none →
       (∀ u, unquote (trimQuotes b) = some u → u.length = 0 ∨ parseDur u = none) →
       parseI (trimQuotes b) = none → parseF (trimQuotes b) = none →
       durationUnmarshalTOML parseDur unquote parseI parseF b = (0, none)) ∧
     (durationUnmarshalTOML parseDur unquote parseI parseF b).2 = none) := by
  have quoted_none : ∀ (_ : ∀ u, unquote (trimQuotes b) = some u →
      u.length = 0 ∨ parseDur u = none),
      (match unquote (trimQuotes b) with
       | some uq => if 0 < uq.length then parseDur uq else none
       | none => none) = none := by
    intro h2
    cases hu : unquote (trimQuotes b) with
    | none => rfl
    | some u =>
      show (if 0 < u.length then parseDur u else none) = none
      rcases h2 u hu with h | h
      · rw [h]; simp
      · rw [h, ite_self]
  refine ⟨?_, ?_, ?_, ?_, ?_, ?_⟩
  · intro d h
    simp only [durationUnmarshalTOML, h]
  · intro u d h1 hu hlen hpd
    simp only [durationUnmarshalTOML, h1, hu, if_pos hlen, hpd]
  · intro n h1 h2 h3
    simp only [durationUnmarshalTOML, h1, quoted_none h2, h3]
  · intro q h1 h2 h3 h4
    simp only [durationUnmarshalTOML, h1, quoted_none h2, h3, h4]
  · intro h1 h2 h3 h4
    simp only [durationUnmarshalTOML, h1, quoted_none h2, h3, h4]
  · simp only [durationUnmarshalTOML]
    cases parseDur (trimQuotes b) with
    | some d => rfl
    | none =>
      cases hm : (match unquote (trimQuotes b) with
                  | some uq => if 0 < uq.length then parseDur uq else none
                  | none => none) with
      | some d => rfl
      | none =>
        cases parseI (trimQuotes b) with
        | some n => rfl
        | none =>
          cases parseF (trimQuotes b) with
          | some q => rfl
          | none => rfl

/-- C4 witness: with sub-parsers that all fail on the literal `"zzz"`,
the chain falls through to the zero duration with a nil error. -/
theorem durationUnmarshalTOML_chain_witness :
    durationUnmarshalTOML (fun _ => none) (fun _ => none) (fun _ => none)
      (fun _ => none) "zzz" = (0, none) :=
  ((durationUnmarshalTOML_chain (fun _ => none) (fun _ => none) (fun _ => none)
    (fun _ => none) "zzz").2.2.2.2.1 rfl (fun u h => by cases h) rfl rfl)

/-- A descriptor loop only reads the query executor and the sanitized
address from the environment, so the detected-version field is
irrelevant to it. -/
theorem gatherLoop_detect_irrelevant (dv dv' : Option Int)
    (rq : String → QueryOutcome) (sa : Option String) (dbs : List String)
    (v : Int) : ∀ qs, gatherLoop ⟨dv, rq, sa⟩ dbs v qs =
      gatherLoop ⟨dv', rq, sa⟩ dbs v qs := by
  intro qs
  induction qs with
  | nil => rfl
  | cons q rest ih => simp only [gatherLoop]; rw [ih]

/-- C5 counterexample: when version detection fails, the cycle is not
fatal — with one descriptor gated at version 0, one record is still
emitted and `Gather` returns a nil error rather than surfacing the
failure. -/
theorem gather_unreachable_version_cex :
    (gather ⟨none, fun _ => .ok [some [("x", .int64 1)]], some "addr"⟩ []
        [⟨"q", 0, false, "", ""⟩]).1.length = 1 ∧
    (gather ⟨none, fun _ => .ok [some [("x", .int64 1)]], some "addr"⟩ []
        [⟨"q", 0, false, "", ""⟩]).2.2 = none :=
  ⟨rfl, rfl⟩

/-- C5 amended: a failed version detection is absorbed, not surfaced:
the cycle proceeds exactly as if the detected version were 0 (so
descriptors gated at a nonpositive version still run and emit
records), and `Gather` reports success. -/
theorem gather_unreachable_version_nonfatal (env : Env) (dbs : List String)
    (qs : List QueryItem) (h : env.detectVersion = none) :
    gather env dbs qs = gather { env with detectVersion := some 0 } dbs qs ∧
    (gather env dbs qs).2.2 = none := by
  obtain ⟨dv, rq, sa⟩ := env
  simp only at h
  subst h
  refine ⟨?_, rfl⟩
  simp only [gather]
  rw [gatherLoop_detect_irrelevant none (some 0) rq sa dbs 0 qs]

/-- C5 witness: the amended statement instantiated at a concrete
environment whose version detection fails. -/
theorem gather_unreachable_version_nonfatal_witness :
    gather ⟨none, fun _ => .ok [], some "a"⟩ [] [] =
      gather ⟨some 0, fun _ => .ok [], some "a"⟩ [] [] ∧
    (gather ⟨none, fun _ => .ok [], some "a"⟩ [] []).2.2 = none :=
  gather_unreachable_version_nonfatal ⟨none, fun _ => .ok [], some "a"⟩ [] [] rfl

/-- C6: a query-execution failure on a descriptor is logged and
isolated — the remaining descriptors run exactly as they would have,
their records are all still emitted, and one more error is logged. -/
theorem gatherLoop_query_error_isolated (env : Env) (dbs : List String)
    (v : Int) (d : QueryItem) (rest : List QueryItem) (hv : d.version ≤ v)
    (hq : env.runQuery (effQuery dbs d) = .execError) :
    gatherLoop env dbs v (d :: rest) =
      ((gatherLoop env dbs v rest).1, 1 + (gatherLoop env dbs v rest).2) := by
  simp [gatherLoop, hv, hq]

/-- C6 witness: with a first descriptor whose query fails and a second
whose query succeeds, the batch result is exactly the second
descriptor's result plus one logged error. -/
theorem gatherLoop_query_error_isolated_witness :
    gatherLoop ⟨some 0, fun s => if s = "bad" then .execError
        else .ok [some [("val", .int64 7)]], some "addr"⟩ [] 0
      (⟨"bad", 0, false, "", ""⟩ :: [⟨"good", 0, false, "", ""⟩]) =
    ((gatherLoop ⟨some 0, fun s => if s = "bad" then .execError
        else .ok [some [("val", .int64 7)]], some "addr"⟩ [] 0
        [⟨"good", 0, false, "", ""⟩]).1,
     1 + (gatherLoop ⟨some 0, fun s => if s = "bad" then .execError
        else .ok [some [("val", .int64 7)]], some "addr"⟩ [] 0
        [⟨"good", 0, false, "", ""⟩]).2) :=
  gatherLoop_query_error_isolated _ _ _ _ _ (by decide) rfl

/-- C9 counterexample: when the first call sets the empty string, it
succeeds, and a second `SetVersion` also succeeds instead of failing
with `AlreadySet` — the claim fails for that pair of calls. -/
theorem setVersion_empty_first_cex :
    (setVersionStep "" "").2 = none ∧
    (setVersionStep (setVersionStep "" "").1 "v2").2 = none := by
  exact ⟨rfl, rfl⟩

/-- C9 amended: the version string is write-once for non-empty values:
a first `SetVersion` of a non-empty `v` succeeds, every later attempt
fails with `AlreadySet` and leaves the stored value untouched, and
`Version()` reads return `v` unrestricted. -/
theorem setVersion_write_once (v w : String) (hv : v ≠ "") :
    (setVersionStep "" v).2 = none ∧
    (setVersionStep "" v).1 = v ∧
    versionGet (setVersionStep "" v).1 = v ∧
    (setVersionStep (setVersionStep "" v).1 w).2 =
      some "version has already been set" ∧
    (setVersionStep (setVersionStep "" v).1 w).1 = v := by
  simp [setVersionStep, versionGet, hv]

/-- C9 witness: the write-once behavior at the concrete versions
`"1.0"` then `"2.0"`. -/
theorem setVersion_write_once_witness :
    (setVersionStep "" "1.0").2 = none ∧
    (setVersionStep "" "1.0").1 = "1.0" ∧
    versionGet (setVersionStep "" "1.0").1 = "1.0" ∧
    (setVersionStep (setVersionStep "" "1.0").1 "2.0").2 =
      some "version has already been set" ∧
    (setVersionStep (setVersionStep "" "1.0").1 "2.0").1 = "1.0" :=
  setVersion_write_once "1.0" "2.0" (by decide)

/-- C10: a scan failure on the second row of a descriptor stops that
descriptor's remaining rows (only the first row's record is emitted),
is logged, does not prevent the following descriptors from running,
and the collection cycle still returns a nil error. -/
theorem gather_scan_error_row_isolation (env : Env) (dbs : List String)
    (v : Int) (d : QueryItem) (rest : List QueryItem) (r1 r2 : Row)
    (addr : String) (hv : d.version ≤ v)
    (ha : env.sanitizedAddress = some addr)
    (hq : env.runQuery (effQuery dbs d) = .ok [some r1, none, some r2]) :
    gatherLoop env dbs v (d :: rest) =
      ({ name := measOf d, tags := (accRowModel (addTagsOf d) addr r1).1,
         fields := (accRowModel (addTagsOf d) addr r1).2 } ::
          (gatherLoop env dbs v rest).1,
       1 + (gatherLoop env dbs v rest).2) ∧
    ∀ qs, (gather env dbs qs).2.2 = none := by
  refine ⟨?_, fun qs => rfl⟩
  simp [gatherLoop, hv, hq, ha, processRows]

/-- C10 witness: the row-isolation statement at a concrete descriptor
whose result set has a scan failure in the middle. -/
theorem gather_scan_error_row_isolation_witness :
    gatherLoop ⟨some 0, fun _ => .ok [some [("a", .int64 1)], none,
        some [("b", .int64 2)]], some "addr"⟩ [] 0
      (⟨"q", 0, false, "", ""⟩ :: []) =
    ({ name := measOf ⟨"q", 0, false, "", ""⟩,
       tags := (accRowModel (addTagsOf ⟨"q", 0, false, "", ""⟩) "addr"
         [("a", .int64 1)]).1,
       fields := (accRowModel (addTagsOf ⟨"q", 0, false, "", ""⟩) "addr"
         [("a", .int64 1)]).2 } ::
        (gatherLoop ⟨some 0, fun _ => .ok [some [("a", .int64 1)], none,
          some [("b", .int64 2)]], some "addr"⟩ [] 0 []).1,
     1 + (gatherLoop ⟨some 0, fun _ => .ok [some [("a", .int64 1)], none,
          some [("b", .int64 2)]], some "addr"⟩ [] 0 []).2) ∧
    ∀ qs, (gather ⟨some 0, fun _ => .ok [some [("a", .int64 1)], none,
        some [("b", .int64 2)]], some "addr"⟩ [] qs).2.2 = none :=
  gather_scan_error_row_isolation _ _ _ _ _ _ _ _ (by decide) rfl rfl

/-- Running the digit accumulator from `a` instead of `0` scales `a`
by `10 ^ length`. -/
theorem digitsVal_foldl_acc (a : ℕ) (ds : List Char) :
    ds.foldl (fun x c => x * 10 + (c.toNat - 48)) a =
      a * 10 ^ ds.length + digitsVal ds := by
  induction ds generalizing a with
  | nil => simp [digitsVal]
  | cons c r ih =>
    simp only [digitsVal, List.foldl_cons, List.length_cons]
    rw [ih, ih]
    ring

/-- Appending digits multiplies the leading value by `10 ^ (length of
the suffix)`. -/
theorem digitsVal_append (xs ys : List Char) :
    digitsVal (xs ++ ys) = digitsVal xs * 10 ^ ys.length + digitsVal ys := by
  simp only [digitsVal, List.foldl_append]
  rw [digitsVal_foldl_acc]
  rfl

/-- A run of `'0'` characters has digit value 0. -/
theorem digitsVal_replicate_zero (k : ℕ) :
    digitsVal (List.replicate k '0') = 0 := by
  induction k with
  | zero => rfl
  | succ n ih => simpa [List.replicate_succ, digitsVal, List.foldl_cons] using ih

/-- The digit value of an all-digit run is below `10 ^ length`. -/
theorem digitsVal_lt (ds : List Char) (h : ds.all isDigitC = true) :
    digitsVal ds < 10 ^ ds.length := by
  induction ds with
  | nil => simp [digitsVal]
  | cons c r ih =>
    simp only [List.all_cons, Bool.and_eq_true] at h
    have hc : c.toNat - 48 ≤ 9 := by
      have h1 := h.1
      simp only [isDigitC, Bool.and_eq_true, decide_eq_true_eq] at h1
      omega
    have e : digitsVal (c :: r) =
        (0 * 10 + (c.toNat - 48)) * 10 ^ r.length + digitsVal r :=
      digitsVal_foldl_acc _ r
    have h1 : digitsVal r < 10 ^ r.length := ih h.2
    have h2 : (0 * 10 + (c.toNat - 48)) * 10 ^ r.length + digitsVal r <
        10 ^ (r.length + 1) := by
      simp only [Nat.zero_mul, Nat.zero_add]
      calc (c.toNat - 48) * 10 ^ r.length + digitsVal r
          < (c.toNat - 48) * 10 ^ r.length + 10 ^ r.length := by omega
        _ = (c.toNat - 48 + 1) * 10 ^ r.length := by ring
        _ ≤ 10 * 10 ^ r.length := Nat.mul_le_mul_right _ (by omega)
        _ = 10 ^ (r.length + 1) := by ring
    rw [e]
    simpa using h2

/-- On a nonempty all-digit run whose value fits 64 bits, `ParseInt`
returns exactly the digit value. -/
theorem parseIntList_digits (ds : List Char) (hne : ds ≠ [])
    (hd : ds.all isDigitC = true)
    (hlt : (digitsVal ds : Int) ≤ 9223372036854775807) :
    parseIntList ds = some ((digitsVal ds : ℕ) : Int) := by
  obtain ⟨c, r, rfl⟩ := List.exists_cons_of_ne_nil hne
  have hcd : isDigitC c = true := by
    simp only [List.all_cons, Bool.and_eq_true] at hd
    exact hd.1
  have hplus : c ≠ '+' := by
    intro h; rw [h] at hcd; exact absurd hcd (by decide)
  have hminus : c ≠ '-' := by
    intro h; rw [h] at hcd; exact absurd hcd (by decide)
  have hnn : (0 : Int) ≤ (digitsVal (c :: r) : Int) := Int.ofNat_nonneg _
  simp only [parseIntList, if_neg hplus, if_neg hminus, parseDigits,
    List.isEmpty_cons, hd, Bool.false_eq_true, if_false, if_true, one_mul]
  rw [if_pos ⟨by omega, by omega⟩]

/-- A separator absent from a character list is never found. -/
theorem splitFirst_not_mem (sep : Char) (cs : List Char) (h : sep ∉ cs) :
    splitFirst sep cs = none := by
  induction cs with
  | nil => rfl
  | cons c r ih =>
    simp only [List.mem_cons, not_or] at h
    have hcs : ¬(c = sep) := fun hh => h.1 hh.symm
    simp [splitFirst, hcs, ih h.2]

/-- Splitting finds the first occurrence of the separator. -/
theorem splitFirst_first_hit (sep : Char) (l r : List Char) (h : sep ∉ l) :
    splitFirst sep (l ++ sep :: r) = some (l, r) := by
  induction l with
  | nil => simp [splitFirst]
  | cons c t ih =>
    simp only [List.mem_cons, not_or] at h
    have hcs : ¬(c = sep) := fun hh => h.1 hh.symm
    simp [splitFirst, hcs, ih h.2]

/-- C2: the string decomposition splits at the first `'.'`, or at the
first `','` when no `'.'` occurs; the left segment is parsed as a
signed 64-bit integer and the right segment (all digits, at most 9 of
them) is right-padded with zeros to 9 characters and parsed, i.e. its
value is scaled by `10 ^ (9 - length)`; in particular
`"42.5" ↦ (42, 500000000)` and `"42,500" ↦ (42, 500000000)`. -/
theorem parseComponents_separator_split :
    (∀ (l r : String) (i : Int), '.' ∉ l.data → r.data.all isDigitC = true →
       r.data.length ≤ 9 → parseInt64 l = some i →
       parseComponents (.str (l ++ "." ++ r)) =
         some (i, ((digitsVal r.data * 10 ^ (9 - r.data.length) : ℕ) : Int))) ∧
    (∀ (l r : String) (i : Int), ',' ∉ l.data → '.' ∉ l.data →
       '.' ∉ r.data → r.data.all isDigitC = true → r.data.length ≤ 9 →
       parseInt64 l = some i →
       parseComponents (.str (l ++ "," ++ r)) =
         some (i, ((digitsVal r.data * 10 ^ (9 - r.data.length) : ℕ) : Int))) ∧
    parseComponents (.str "42.5") = some (42, 500000000) ∧
    parseComponents (.str "42,500") = some (42, 500000000) := by
  have pad : ∀ (l r : String) (i : Int), r.data.all isDigitC = true →
      r.data.length ≤ 9 → parseInt64 l = some i →
      parseUnixTimeComponents l r =
        some (i, ((digitsVal r.data * 10 ^ (9 - r.data.length) : ℕ) : Int)) := by
    intro l r i hrd hr9 hi
    simp only [parseUnixTimeComponents, hi]
    rw [List.take_of_length_le hr9]
    have hbd : (r.data ++ List.replicate (9 - r.data.length) '0').all isDigitC
        = true := by
      rw [List.all_append, hrd, Bool.true_and]
      exact List.all_eq_true.mpr fun c hcm => by
        rw [List.eq_of_mem_replicate hcm]; decide
    have hlen : (r.data ++ List.replicate (9 - r.data.length) '0').length
        = 9 := by
      simp only [List.length_append, List.length_replicate]
      omega
    have hne : r.data ++ List.replicate (9 - r.data.length) '0' ≠ [] :=
      List.ne_nil_of_length_pos (by rw [hlen]; norm_num)
    have hvlt : ((digitsVal (r.data ++ List.replicate (9 - r.data.length) '0')
        : ℕ) : Int) ≤ 9223372036854775807 := by
      have := digitsVal_lt _ hbd
      rw [hlen] at this
      have : digitsVal (r.data ++ List.replicate (9 - r.data.length) '0')
          ≤ 999999999 := by omega
      omega
    have hp := parseIntList_digits _ hne hbd hvlt
    simp only [hp]
    rw [digitsVal_append, digitsVal_replicate_zero, List.length_replicate]
    simp
  refine ⟨?_, ?_, by decide, by decide⟩
  · intro l r i hl hrd hr9 hi
    have hstr : (l ++ "." ++ r).data = l.data ++ '.' :: r.data := by
      have hdot : (".").data = ['.'] := rfl
      simp [String.data_append, hdot]
    simp only [parseComponents, hstr]
    rw [splitFirst_first_hit '.' l.data r.data hl]
    exact pad l r i hrd hr9 hi
  · intro l r i hlc hl hr hrd hr9 hi
    have hstr : (l ++ "," ++ r).data = l.data ++ ',' :: r.data := by
      have hcom : (",").data = [','] := rfl
      simp [String.data_append, hcom]
    have hnodot : '.' ∉ l.data ++ ',' :: r.data := by
      simp only [List.mem_append, List.mem_cons, not_or]
      exact ⟨hl, by decide, hr⟩
    simp only [parseComponents, hstr]
    rw [splitFirst_not_mem '.' _ hnodot]
    rw [splitFirst_first_hit ',' l.data r.data hlc]
    exact pad l r i hrd hr9 hi

/-- C2 witness: the split-and-pad behavior at `"7.25"`. -/
theorem parseComponents_separator_split_witness :
    parseComponents (.str ("7" ++ "." ++ "25")) =
      some (7, ((digitsVal ("25").data * 10 ^ (9 - ("25").data.length) : ℕ)
        : Int)) :=
  parseComponents_separator_split.1 "7" "25" 7 (by decide) (by decide)
    (by decide) (by decide)

/-- A classification step for a column named differently leaves the
lookups for `name` unchanged. -/
theorem classifyStep_ne (addTags : List String)
    (st : (String → Option String) × (String → Option RawValue))
    (c : String) (v : RawValue) (name : String) (hc : ¬(c = name)) :
    (classifyStep addTags st (c, v)).1 name = st.1 name ∧
    (classifyStep addTags st (c, v)).2 name = st.2 name := by
  have hnc : ¬(name = c) := fun hh => hc hh.symm
  cases v <;> simp only [classifyStep] <;> split_ifs <;>
    simp [upd, hnc]

/-- Folding classification over columns whose names avoid `name`
leaves the lookups for `name` unchanged. -/
theorem foldl_classify_ne (addTags : List String) (name : String) :
    ∀ (row : Row) (st), name ∉ row.map Prod.fst →
      ((row.foldl (classifyStep addTags) st).1 name = st.1 name ∧
       (row.foldl (classifyStep addTags) st).2 name = st.2 name) := by
  intro row
  induction row with
  | nil => intro st _; exact ⟨rfl, rfl⟩
  | cons cv rest ih =>
    intro st h
    obtain ⟨c, v⟩ := cv
    simp only [List.map_cons, List.mem_cons, not_or] at h
    obtain ⟨h1, h2⟩ := h
    simp only [List.foldl_cons]
    have hp := classifyStep_ne addTags st c v name (fun hh => h1 hh.symm)
    obtain ⟨e1, e2⟩ := ih (classifyStep addTags st (c, v)) h2
    exact ⟨e1.trans hp.1, e2.trans hp.2⟩

/-- Classifying the column named `name` itself, starting from a state
where `name` is unbound, lands the column exactly where `columnFate`
says. -/
theorem classifyStep_self (addTags : List String)
    (st : (String → Option String) × (String → Option RawValue))
    (name : String) (v : RawValue) (h1 : st.1 name = none)
    (h2 : st.2 name = none) :
    ((classifyStep addTags st (name, v)).1 name,
     (classifyStep addTags st (name, v)).2 name) =
      columnFate addTags name (some v) := by
  cases v <;> simp only [classifyStep, columnFate] <;> split_ifs <;>
    simp_all [upd]

/-- For a row with distinct column names and a state where `name` is
unbound, the folded classification at `name` is `columnFate` of the
row's value at `name`. -/
theorem foldl_classify_fate (addTags : List String) (name : String) :
    ∀ (row : Row) (st), (row.map Prod.fst).Nodup → st.1 name = none →
      st.2 name = none →
      ((row.foldl (classifyStep addTags) st).1 name,
       (row.foldl (classifyStep addTags) st).2 name) =
        columnFate addTags name (lookupCol row name) := by
  intro row
  induction row with
  | nil => intro st _ h1 h2; simp [columnFate, lookupCol, h1, h2]
  | cons cv rest ih =>
    intro st hnd h1 h2
    obtain ⟨c, v⟩ := cv
    simp only [List.map_cons, List.nodup_cons] at hnd
    obtain ⟨hcn, hrest⟩ := hnd
    by_cases hc : c = name
    · subst hc
      have hl : lookupCol ((c, v) :: rest) c = some v := by
        simp [lookupCol]
      rw [hl]
      simp only [List.foldl_cons]
      obtain ⟨e1, e2⟩ := foldl_classify_ne addTags c rest
        (classifyStep addTags st (c, v)) hcn
      rw [e1, e2]
      exact classifyStep_self addTags st c v h1 h2
    · have hl : lookupCol ((c, v) :: rest) name = lookupCol rest name := by
        simp [lookupCol, hc]
      rw [hl]
      simp only [List.foldl_cons]
      have hp := classifyStep_ne addTags st c v name hc
      exact ih (classifyStep addTags st (c, v)) hrest (hp.1.trans h1)
        (hp.2.trans h2)

/-- At any column name other than the pre-seeded `"server"` and `"db"`
tag keys, the maps `accRow` builds are characterized by `columnFate`
of the row's value at that name. -/
theorem accRow_lookup_fate (addTags : List String) (addr : String)
    (name : String) (hs : ¬(name = "server")) (hd : ¬(name = "db"))
    (row : Row) (hnd : (row.map Prod.fst).Nodup) :
    ((accRowModel addTags addr row).1 name,
     (accRowModel addTags addr row).2 name) =
      columnFate addTags name (lookupCol row name) := by
  simp only [accRowModel]
  exact foldl_classify_fate addTags name row _ hnd (by simp [hs, hd]) rfl

/-- No `columnFate` outcome populates both the tag and the field
slot. -/
theorem columnFate_not_both (addTags : List String) (name : String)
    (o : Option RawValue) :
    ¬((columnFate addTags name o).1.isSome ∧
      (columnFate addTags name o).2.isSome) := by
  cases o with
  | none => simp [columnFate]
  | some v => simp only [columnFate]; split_ifs <;> cases v <;> simp_all

/-- C7 counterexample: a non-null Bool column whose name is a
configured additional tag is dropped by the classification switch (it
is neither a tag nor a field), instead of becoming a decimal-string
tag as claimed. -/
theorem accRow_bool_tag_dropped_cex :
    (accRowModel ["flag"] "a" [("flag", RawValue.boolV true)]).1 "flag" =
      none ∧
    (accRowModel ["flag"] "a" [("flag", RawValue.boolV true)]).2 "flag" =
      none := by
  exact ⟨rfl, rfl⟩

/-- C7 amended: for a non-null, non-ignored column (named neither
`"server"` nor `"db"`) listed in the additional tags: String and
ByteSequence values become tags carrying the string, Int64/Int32/Int
values become tags carrying the decimal string, and any other kind —
Float64 and Bool included — is a per-column classification failure:
the column is dropped from both maps, non-fatally. -/
theorem accRow_tag_value_classification (addTags : List String)
    (addr : String) (row : Row) (name : String) (v : RawValue)
    (hnd : (row.map Prod.fst).Nodup) (hs : ¬(name = "server"))
    (hd : ¬(name = "db")) (hi : ¬(name = "stats_reset"))
    (ht : name ∈ addTags)
    (hl : lookupCol row name = some v) :
    (∀ s, v = RawValue.str s →
       ((accRowModel addTags addr row).1 name,
        (accRowModel addTags addr row).2 name) = (some s, none)) ∧
    (∀ s, v = RawValue.bytes s →
       ((accRowModel addTags addr row).1 name,
        (accRowModel addTags addr row).2 name) = (some s, none)) ∧
    (∀ n, v = RawValue.int64 n ∨ v = RawValue.int32 n ∨ v = RawValue.intV n →
       ((accRowModel addTags addr row).1 name,
        (accRowModel addTags addr row).2 name) = (some (toString n), none)) ∧
    (∀ q, v = RawValue.float64 q →
       ((accRowModel addTags addr row).1 name,
        (accRowModel addTags addr row).2 name) = (none, none)) ∧
    (∀ b, v = RawValue.boolV b →
       ((accRowModel addTags addr row).1 name,
        (accRowModel addTags addr row).2 name) = (none, none)) := by
  have key : ((accRowModel addTags addr row).1 name,
      (accRowModel addTags addr row).2 name) =
        columnFate addTags name (some v) := by
    rw [accRow_lookup_fate addTags addr name hs hd row hnd, hl]
  refine ⟨?_, ?_, ?_, ?_, ?_⟩
  · intro s hv; subst hv; rw [key]; simp [columnFate, hi, ht]
  · intro s hv; subst hv; rw [key]; simp [columnFate, hi, ht]
  · rintro n (hv | hv | hv) <;> (subst hv; rw [key]; simp [columnFate, hi, ht])
  · intro q hv; subst hv; rw [key]; simp [columnFate, hi, ht]
  · intro b hv; subst hv; rw [key]; simp [columnFate, hi, ht]

/-- C7 witness: a string-valued additional-tag column becomes a tag
with that string and no field. -/
theorem accRow_tag_value_classification_witness :
    ((accRowModel ["t"] "a" [("t", RawValue.str "x")]).1 "t",
     (accRowModel ["t"] "a" [("t", RawValue.str "x")]).2 "t") =
      (some "x", none) :=
  (accRow_tag_value_classification ["t"] "a" [("t", RawValue.str "x")] "t"
    (RawValue.str "x") (by decide) (by decide) (by decide) (by decide)
    (by decide) rfl).1 "x" rfl

/-- C8 counterexample: a non-null column literally named `"db"` (and
not listed as an additional tag) becomes a field while the tags map
already carries the pre-seeded `"db"` entry, so the column name
appears in both maps, contradicting the claimed invariant. -/
theorem accRow_reserved_key_collision_cex :
    ((accRowModel [] "a" [("db", RawValue.str "x")]).1 "db").isSome ∧
    ((accRowModel [] "a" [("db", RawValue.str "x")]).2 "db").isSome := by
  exact ⟨rfl, rfl⟩

/-- C8 amended: for every column name other than the pre-seeded
`"server"` and `"db"` tag keys (on rows with distinct column names):
the name appears in at most one of the tag and field maps, never both;
a Null-valued column appears in neither; the ignored column
`stats_reset` appears in neither; and on the claim's example row the
classification yields exactly `tags ∋ host="a"`, `fields ∋ value=42`,
with `secret` absent from both. -/
theorem accRow_column_partition (addTags : List String) (addr : String)
    (row : Row) (name : String) (hnd : (row.map Prod.fst).Nodup)
    (hs : ¬(name = "server")) (hd : ¬(name = "db")) :
    (¬(((accRowModel addTags addr row).1 name).isSome ∧
       ((accRowModel addTags addr row).2 name).isSome)) ∧
    (lookupCol row name = some RawValue.null →
      (accRowModel addTags addr row).1 name = none ∧
      (accRowModel addTags addr row).2 name = none) ∧
    (name = "stats_reset" →
      (accRowModel addTags addr row).1 name = none ∧
      (accRowModel addTags addr row).2 name = none) ∧
    ((accRowModel ["host"] "addr" [("host", RawValue.str "a"),
        ("value", RawValue.int64 42), ("secret", RawValue.null)]).1 "host" =
      some "a" ∧
     (accRowModel ["host"] "addr" [("host", RawValue.str "a"),
        ("value", RawValue.int64 42), ("secret", RawValue.null)]).2 "value" =
      some (RawValue.int64 42) ∧
     (accRowModel ["host"] "addr" [("host", RawValue.str "a"),
        ("value", RawValue.int64 42), ("secret", RawValue.null)]).1 "secret" =
      none ∧
     (accRowModel ["host"] "addr" [("host", RawValue.str "a"),
        ("value", RawValue.int64 42), ("secret", RawValue.null)]).2 "secret" =
      none) := by
  have hfate := accRow_lookup_fate addTags addr name hs hd row hnd
  have e1 : (accRowModel addTags addr row).1 name =
      (columnFate addTags name (lookupCol row name)).1 :=
    congrArg Prod.fst hfate
  have e2 : (accRowModel addTags addr row).2 name =
      (columnFate addTags name (lookupCol row name)).2 :=
    congrArg Prod.snd hfate
  refine ⟨?_, ?_, ?_, by decide⟩
  · rw [e1, e2]
    exact columnFate_not_both addTags name (lookupCol row name)
  · intro hlk
    rw [e1, e2, hlk]
    simp [columnFate]
  · intro hst
    rw [e1, e2]
    cases lookupCol row name with
    | none => simp [columnFate]
    | some v => simp [columnFate, hst]

/-- C8 witness: a name absent from a concrete row appears in neither
map. -/
theorem accRow_column_partition_witness :
    ¬(((accRowModel ["host"] "addr" [("host", RawValue.str "a")]).1
        "other").isSome ∧
      ((accRowModel ["host"] "addr" [("host", RawValue.str "a")]).2
        "other").isSome) :=
  (accRow_column_partition ["host"] "addr" [("host", RawValue.str "a")]
    "other" (by decide) (by decide) (by decide)).1

end CUA
